import Mathlib

/-!
Shallow embedding of the core pipeline of the adif_map repository
(src/adimap/adif.py, src/adimap/maidenhead.py, src/adimap/map_builder.py):
ADIF tag scanning, Maidenhead grid conversion, coordinate resolution and the
record-to-point reduction, together with theorems settling the specification
claims.

Conventions of the embedding:
* Python strings are embedded as `List Char` (with `String` at the record
  level); `str.strip()` is `pyStrip` over ASCII whitespace (no claim involves
  non-ASCII whitespace).
* Python floats are embedded as exact rationals `ℚ`.  Every concrete value in
  the claims (grid-cell arithmetic with denominators dividing 480, short
  decimal coordinate strings) is exactly representable in binary floating
  point as well, so no rounding behaviour is lost on the inputs at issue.
  `float(...)` literal parsing is `pyFloat`: optional whitespace and sign,
  decimal digits with optional fraction and exponent.  The "inf"/"nan"
  spellings cannot reach `_parse_coord`'s range check (their final letter is
  taken as a hemisphere suffix and the remainder fails to parse), and
  digit-separator underscores are not exercised by any claim.
* `ord` arithmetic uses `Char.toNat`; `str.upper`, `str.isalpha` and
  `str.isdigit` are the ASCII `Char.toUpper`, `Char.isAlpha`, `Char.isDigit`
  (the character classes of the adif.py regular expression are ASCII
  already).
-/

unseal Rat.add Rat.sub Rat.mul Rat.inv

/-- ASCII whitespace as recognised by Python `str.strip`. -/
def isPyWs (c : Char) : Bool :=
  c = ' ' || c = '\t' || c = '\n' || c = '\r' || c = '\x0b' || c = '\x0c'

/-- Python `str.strip()`: remove leading and trailing whitespace. -/
def pyStrip (l : List Char) : List Char :=
  ((l.dropWhile isPyWs).reverse.dropWhile isPyWs).reverse

/-- Value of a decimal digit string, `int(...)` on an all-digit string. -/
def digitsToNat (l : List Char) : Nat :=
  l.foldl (fun a c => a * 10 + (c.toNat - 48)) 0

/-- Exponent-and-tail stage of float literal parsing: accept the empty tail,
or `e`/`E` with an optional sign and a nonempty run of digits consuming the
whole remainder. -/
def pyFloatExp (m : ℚ) (rest : List Char) : Option ℚ :=
  match rest with
  | [] => some m
  | e :: r =>
    if e = 'e' ∨ e = 'E' then
      let sr : Bool × List Char :=
        match r with
        | '+' :: rr => (false, rr)
        | '-' :: rr => (true, rr)
        | rr => (false, rr)
      if sr.2.takeWhile Char.isDigit ≠ [] ∧ sr.2.dropWhile Char.isDigit = [] then
        some (m * (10 : ℚ) ^
          (if sr.1 then -(digitsToNat (sr.2.takeWhile Char.isDigit) : ℤ)
           else (digitsToNat (sr.2.takeWhile Char.isDigit) : ℤ)))
      else none
    else none

/-- Python `float(...)` on the decimal-literal fragment relevant here:
optional surrounding whitespace, optional sign, digits with an optional
decimal point, fraction and exponent.  Returns the exact rational value. -/
def pyFloat (l : List Char) : Option ℚ :=
  let s := pyStrip l
  let st : ℚ × List Char :=
    match s with
    | '+' :: r => (1, r)
    | '-' :: r => (-1, r)
    | r => (1, r)
  let intp := st.2.takeWhile Char.isDigit
  match st.2.dropWhile Char.isDigit with
  | '.' :: t3 =>
    if intp = [] ∧ t3.takeWhile Char.isDigit = [] then none
    else
      (pyFloatExp ((digitsToNat intp : ℚ) +
          (digitsToNat (t3.takeWhile Char.isDigit) : ℚ) /
            (10 : ℚ) ^ (t3.takeWhile Char.isDigit).length)
        (t3.dropWhile Char.isDigit)).map (fun v => st.1 * v)
  | t2 =>
    if intp = [] then none
    else (pyFloatExp (digitsToNat intp : ℚ) t2).map (fun v => st.1 * v)

/-- Character at position `i` (every use below is length-guarded, matching the
guarded Python indexing). -/
def charAt (g : List Char) (i : Nat) : Char := g.getD i ' '

/-- maidenhead.py `maidenhead_to_latlon`: convert a Maidenhead grid string to
the (lat, lon) center of the resolved cell.  The Python `try`/`except` around
the first-pair arithmetic can never fire (`ord` of an indexed character never
raises), so it has no counterpart here; the sequential cell-size assignments
are embedded as the equivalent final-length conditionals. -/
def maidenhead_to_latlon (grid : String) : Option (ℚ × ℚ) :=
  if grid.data = [] then none
  else
    let g := (pyStrip grid.data).map Char.toUpper
    if g.length < 2 then none
    else
      let lon1 : ℚ := ((((charAt g 0).toNat : ℤ) - 65) * 20 - 180 : ℤ)
      let lat1 : ℚ := ((((charAt g 1).toNat : ℤ) - 65) * 10 - 90 : ℤ)
      let stage2 : Option (ℚ × ℚ) :=
        if 4 ≤ g.length ∧ (charAt g 2).isDigit ∧ (charAt g 3).isDigit then
          some (lat1 + (((charAt g 3).toNat - 48 : ℕ) : ℚ) * 1,
                lon1 + (((charAt g 2).toNat - 48 : ℕ) : ℚ) * 2)
        else if 3 ≤ g.length then none
        else some (lat1, lon1)
      match stage2 with
      | none => none
      | some (lat2, lon2) =>
        let stage3 : Option (ℚ × ℚ) :=
          if 6 ≤ g.length ∧ (charAt g 4).isAlpha ∧ (charAt g 5).isAlpha then
            some (lat2 + ((((charAt g 5).toNat : ℤ) - 65 : ℤ) : ℚ) * (1 / 24),
                  lon2 + ((((charAt g 4).toNat : ℤ) - 65 : ℤ) : ℚ) * (2 / 24))
          else if g.length = 5 then none
          else some (lat2, lon2)
        match stage3 with
        | none => none
        | some (lat3, lon3) =>
          let stage4 : Option (ℚ × ℚ) :=
            if 8 ≤ g.length ∧ (charAt g 6).isDigit ∧ (charAt g 7).isDigit then
              some (lat3 + (((charAt g 7).toNat - 48 : ℕ) : ℚ) * (1 / 240),
                    lon3 + (((charAt g 6).toNat - 48 : ℕ) : ℚ) * (2 / 240))
            else if g.length = 7 then none
            else some (lat3, lon3)
          match stage4 with
          | none => none
          | some (lat4, lon4) =>
            let cell_lon : ℚ :=
              if 8 ≤ g.length then 2 / 240
              else if 6 ≤ g.length then 2 / 24
              else if 4 ≤ g.length then 2
              else 20
            let cell_lat : ℚ :=
              if 8 ≤ g.length then 1 / 240
              else if 6 ≤ g.length then 1 / 24
              else if 4 ≤ g.length then 1
              else 10
            some (lat4 + cell_lat / 2, lon4 + cell_lon / 2)

/-- map_builder.py `_parse_coord`, first half: strip, split off a trailing
alphabetic hemisphere suffix, parse the numeric remainder and apply the sign.
`N`/`E` keep the magnitude, `S`/`W` negate it, any other letter fails. -/
def signedValue (text : List Char) : Option ℚ :=
  let s := pyStrip text
  match s.getLast? with
  | none => none
  | some c =>
    if c.isAlpha then
      match pyFloat s.dropLast with
      | none => none
      | some v =>
        if c.toUpper = 'N' ∨ c.toUpper = 'E' then some v
        else if c.toUpper = 'S' ∨ c.toUpper = 'W' then some (-v)
        else none
    else pyFloat s

/-- map_builder.py `_parse_coord`, second half: the per-axis range check
(reject, never clamp). -/
def rangeFilter (is_lat : Bool) (val : ℚ) : Option ℚ :=
  if is_lat = true ∧ ¬(-90 ≤ val ∧ val ≤ 90) then none
  else if is_lat = false ∧ ¬(-180 ≤ val ∧ val ≤ 180) then none
  else some val

/-- map_builder.py `_parse_coord` (the `text is None` guard is unreachable
from the embedded call sites, which test truthiness first). -/
def _parse_coord (text : List Char) (is_lat : Bool) : Option ℚ :=
  match signedValue text with
  | none => none
  | some val => rangeFilter is_lat val

/-- map_builder.py `parse_latlon`. -/
def parse_latlon (lat_str lon_str : String) : Option (ℚ × ℚ) :=
  match _parse_coord lat_str.data true, _parse_coord lon_str.data false with
  | some la, some lo => some (la, lo)
  | _, _ => none

/-- A parsed ADIF record: the Python dict embedded as a key-value list. -/
abbrev Entry := List (String × String)

/-- Python `dict.get`. -/
def getField (e : Entry) (k : String) : Option String :=
  (e.find? (fun p => p.1 == k)).map (fun p => p.2)

/-- map_builder.py `best_latlon`: explicit LAT/LON first (`if lat and lon`,
Python truthiness = present and nonempty), otherwise
`entry.get("GRIDSQUARE") or entry.get("MY_GRIDSQUARE")` (Python `or` skips an
absent or empty primary field), tagging the source.  A returned pair is a
nonempty tuple, always truthy in Python, so `if pair:` is the `some` case. -/
def best_latlon (e : Entry) : Option (ℚ × ℚ × String) :=
  let direct : Option (ℚ × ℚ) :=
    match getField e "LAT", getField e "LON" with
    | some l, some o => if l ≠ "" ∧ o ≠ "" then parse_latlon l o else none
    | _, _ => none
  match direct with
  | some p => some (p.1, p.2, "LATLON")
  | none =>
    let grid : Option String :=
      match getField e "GRIDSQUARE" with
      | some gq => if gq ≠ "" then some gq else getField e "MY_GRIDSQUARE"
      | none => getField e "MY_GRIDSQUARE"
    match grid with
    | some gq =>
      if gq ≠ "" then
        match maidenhead_to_latlon gq with
        | some p => some (p.1, p.2, "GRID")
        | none => none
      else none
    | none => none

/-- map_builder.py `build_map`, the record-to-point reduction loop over
`points` and `skipped`. -/
def reducePoints (records : List Entry) : List (ℚ × ℚ × Entry) × Nat :=
  records.foldl
    (fun acc rec =>
      match best_latlon rec with
      | none => (acc.1, acc.2 + 1)
      | some p => (acc.1 ++ [(p.1, p.2.1, rec)], acc.2))
    ([], 0)

/-- adif.py field-name character class `[A-Za-z0-9_]`. -/
def isNameChar (c : Char) : Bool := c.isAlpha || c.isDigit || c = '_'

/-- One match of the adif.py field pattern
`<([A-Za-z0-9_]+):(\d+)(?::[^>]*)?>([^<]*)`: name, length and (untruncated)
value. -/
structure FieldTag where
  name : List Char
  len : Nat
  value : List Char
deriving DecidableEq

/-- Try the field pattern anchored at the start of `l`, returning the tag and
the remainder after the match.  Greedy matching of this pattern is
deterministic (each character class is disjoint from the delimiter required
next), so maximal munch is exactly the regex semantics; `re.DOTALL` only
affects `.`, which the pattern does not use, and `[^<]*` crosses newlines by
itself. -/
def tagAt (l : List Char) : Option (FieldTag × List Char) :=
  match l with
  | [] => none
  | c :: r1 =>
    if c = '<' ∧ r1.takeWhile isNameChar ≠ [] then
      match r1.dropWhile isNameChar with
      | ':' :: r3 =>
        if r3.takeWhile Char.isDigit = [] then none
        else
          match r3.dropWhile Char.isDigit with
          | '>' :: r5 =>
            some (⟨r1.takeWhile isNameChar, digitsToNat (r3.takeWhile Char.isDigit),
                   r5.takeWhile (fun d => !(d = '<'))⟩,
                  r5.dropWhile (fun d => !(d = '<')))
          | ':' :: r5 =>
            match r5.dropWhile (fun d => !(d = '>')) with
            | '>' :: r6 =>
              some (⟨r1.takeWhile isNameChar, digitsToNat (r3.takeWhile Char.isDigit),
                     r6.takeWhile (fun d => !(d = '<'))⟩,
                    r6.dropWhile (fun d => !(d = '<')))
            | _ => none
          | _ => none
      | _ => none
    else none

theorem length_dropWhile_le (p : Char → Bool) :
    ∀ l : List Char, (l.dropWhile p).length ≤ l.length := by
  intro l
  induction l with
  | nil => simp [List.dropWhile]
  | cons c r ih =>
    by_cases h : p c
    · simp only [List.dropWhile, h]
      exact Nat.le_succ_of_le ih
    · simp [List.dropWhile, h]

theorem tagAt_rem_lt {l : List Char} {t : FieldTag} {rem : List Char}
    (h : tagAt l = some (t, rem)) : rem.length < l.length := by
  match l with
  | [] => simp [tagAt] at h
  | c :: r1 =>
    rw [tagAt] at h
    split at h
    case isFalse => exact absurd h (by simp)
    case isTrue hc =>
      have h1 : (r1.dropWhile isNameChar).length ≤ r1.length :=
        length_dropWhile_le _ r1
      split at h
      case h_2 => exact absurd h (by simp)
      case h_1 r3 heq3 =>
        split at h
        case isTrue => exact absurd h (by simp)
        case isFalse =>
          have h3 : r3.length < r1.length := by
            have := heq3 ▸ h1
            simp at this
            omega
          have h4 : (r3.dropWhile Char.isDigit).length ≤ r3.length :=
            length_dropWhile_le _ r3
          split at h
          case h_3 => exact absurd h (by simp)
          case h_1 r5 heq5 =>
            injection h with h'
            injection h' with ht' hrem
            subst hrem
            have h5 : r5.length < r3.length := by
              have := heq5 ▸ h4
              simp at this
              omega
            have h6 : (r5.dropWhile (fun d => !(d = '<'))).length ≤ r5.length :=
              length_dropWhile_le _ r5
            simp only [List.length_cons]
            omega
          case h_2 r5 heq5 =>
            have h5 : r5.length < r3.length := by
              have := heq5 ▸ h4
              simp at this
              omega
            split at h
            case h_2 => exact absurd h (by simp)
            case h_1 r6 heq6 =>
              injection h with h'
              injection h' with ht' hrem
              subst hrem
              have h6 : (r5.dropWhile (fun d => !(d = '>'))).length ≤ r5.length :=
                length_dropWhile_le _ r5
              have h7 : r6.length < r5.length := by
                have := heq6 ▸ h6
                simp at this
                omega
              have h8 : (r6.dropWhile (fun d => !(d = '<'))).length ≤ r6.length :=
                length_dropWhile_le _ r6
              simp only [List.length_cons]
              omega

/-- adif.py `field_pat.finditer`: all leftmost non-overlapping matches,
scanning forward one character at a time between matches. -/
def findTags (l : List Char) : List FieldTag :=
  match l with
  | [] => []
  | c :: rest =>
    match ht : tagAt (c :: rest) with
    | some (t, rem) => t :: findTags rem
    | none => findTags rest
termination_by l.length
decreasing_by
  · have := tagAt_rem_lt ht
    omega
  · simp

/-- Python `dict.__setitem__`: overwrite in place when the key is present,
append at the end otherwise. -/
def dictInsert (e : Entry) (k v : String) : Entry :=
  if e.any (fun p => p.1 == k) then e.map (fun p => if p.1 == k then (k, v) else p)
  else e ++ [(k, v)]

/-- The record key of a match: `match.group(1).upper()`. -/
def tagKey (m : FieldTag) : String := ⟨m.name.map Char.toUpper⟩

/-- The stored value of a match: `match.group(3)[:length].strip()` —
truncate to LENGTH first, trim whitespace afterwards. -/
def tagVal (m : FieldTag) : String := ⟨pyStrip (m.value.take m.len)⟩

/-- The adif.py per-chunk loop body: fold the matches into a fresh dict. -/
def buildEntry (ms : List FieldTag) : Entry :=
  ms.foldl (fun e m => dictInsert e (tagKey m) (tagVal m)) []

/-- Case-insensitive character comparison as used by `re.IGNORECASE` over the
ASCII markers. -/
def lcEq (a b : Char) : Bool := a.toLower == b.toLower

/-- Does `l` start with the pattern `pat`, case-insensitively? -/
def startsWithCI : List Char → List Char → Bool
  | [], _ => true
  | _ :: _, [] => false
  | p :: ps, c :: cs => lcEq p c && startsWithCI ps cs

/-- The end-of-header marker. -/
def eohPat : List Char := ['<', 'e', 'o', 'h', '>']

/-- The end-of-record marker. -/
def eorPat : List Char := ['<', 'e', 'o', 'r', '>']

/-- `re.search(pat, l, re.IGNORECASE)` followed by slicing at `end()`:
the remainder after the first case-insensitive occurrence of `pat`, or `none`
when there is no occurrence. -/
def dropThroughCI (pat : List Char) : List Char → Option (List Char)
  | [] => none
  | c :: rest =>
    if startsWithCI pat (c :: rest) then some ((c :: rest).drop pat.length)
    else dropThroughCI pat rest

/-- `re.split` on the case-insensitive `<eor>` marker. -/
def splitEor (l : List Char) : List (List Char) :=
  match l with
  | [] => [[]]
  | c :: rest =>
    if startsWithCI eorPat (c :: rest) then [] :: splitEor (rest.drop 4)
    else
      match splitEor rest with
      | [] => [[c]]
      | h :: t => (c :: h) :: t
termination_by l.length
decreasing_by
  · simp only [List.length_drop, List.length_cons]
    omega
  · simp only [List.length_cons]
    omega

/-- adif.py lines 12-13: drop everything up to and including the first
case-insensitive `<eoh>`; with no header marker the whole text is data. -/
def dataSection (l : List Char) : List Char :=
  match dropThroughCI eohPat l with
  | some rest => rest
  | none => l

/-- The adif.py record loop body for one raw chunk: strip it, skip it when
blank, build the dict from its tag matches, and keep the dict only when it is
nonempty. -/
def processChunk (raw : List Char) : Option Entry :=
  let r := pyStrip raw
  if r = [] then none
  else
    let entry := buildEntry (findTags r)
    if entry = [] then none else some entry

/-- adif.py `parse_adif`. -/
def parse_adif (content : String) : List Entry :=
  (splitEor (dataSection content.data)).filterMap processChunk


/-- C1.  The claim states that every coordinate returned by `best_latlon` is
in range.  The grid path violates it: the Maidenhead converter never validates
the first two characters (the Python `try`/`except` around `ord` cannot fire),
so the record with GRIDSQUARE "ZZ" resolves to latitude 165 and longitude 330,
far outside [-90, 90] × [-180, 180], instead of being treated as absent. -/
theorem c1_grid_out_of_range :
    best_latlon [("GRIDSQUARE", "ZZ")] = some (165, 330, "GRID")
    ∧ ¬((165 : ℚ) ≤ 90 ∧ (330 : ℚ) ≤ 180) := by decide

/-- C2.  The claim states that `maidenhead_to_latlon` returns `none` on every
invalid input, including characters outside the valid range for their
position.  It does not: "11" (non-letters in positions 0 and 1) yields the
coordinate (-245, -490), and "FN20ABXY" (non-digits in positions 6 and 7,
where digits are required) also yields a coordinate. -/
theorem c2_invalid_grid_accepted :
    maidenhead_to_latlon "11" = some (-245, -490)
    ∧ (maidenhead_to_latlon "FN20ABXY").isSome = true := by decide

/-- C3 counterexample.  The claim states that a hemisphere letter of the wrong
axis makes the parse fail; in fact `_parse_coord` accepts any of N, E, S, W on
either axis, so "40.0W" parsed as a latitude yields -40 rather than absent. -/
theorem c3_wrong_axis_accepted :
    _parse_coord "40.0W".data true = some (-40)
    ∧ _parse_coord "40.0W".data true ≠ none := by decide

/-- C3 as amended: a trailing alphabetic suffix must be one of N, E, S, W
regardless of the axis being parsed — any other letter makes the whole parse
fail — and S and W negate the magnitude while N and E leave it positive (the
axis range check still applies to the signed result). -/
theorem c3_suffix_amended (s : List Char) (islat : Bool) (c : Char) (v : ℚ)
    (h1 : (pyStrip s).getLast? = some c) (h2 : c.isAlpha = true)
    (h3 : pyFloat ((pyStrip s).dropLast) = some v) :
    _parse_coord s islat =
      (if c.toUpper = 'N' ∨ c.toUpper = 'E' then rangeFilter islat v
       else if c.toUpper = 'S' ∨ c.toUpper = 'W' then rangeFilter islat (-v)
       else none) := by
  simp only [_parse_coord, signedValue, h1, h2, h3, if_true]
  by_cases hne : c.toUpper = 'N' ∨ c.toUpper = 'E'
  · simp [hne]
  · by_cases hsw : c.toUpper = 'S' ∨ c.toUpper = 'W'
    · simp [hne, hsw]
    · simp [hne, hsw]

theorem c3_suffix_amended_witness :
    _parse_coord "40.0W".data true =
      (if 'W'.toUpper = 'N' ∨ 'W'.toUpper = 'E' then rangeFilter true 40
       else if 'W'.toUpper = 'S' ∨ 'W'.toUpper = 'W' then rangeFilter true (-40)
       else none) :=
  c3_suffix_amended "40.0W".data true 'W' 40 (by decide) (by decide) (by decide)

/-- C4 counterexample.  The claim expects `maidenhead_to_latlon "FN20"` to be
within 0.01 of (41.0, -72.0); the code (correctly following the stated cell
formula) returns (40.5, -75.0), which is outside that tolerance. -/
theorem c4_fn20_counterexample :
    maidenhead_to_latlon "FN20" = some (81 / 2, -75)
    ∧ ¬∃ la lo : ℚ, maidenhead_to_latlon "FN20" = some (la, lo)
        ∧ |la - 41| ≤ 1 / 100 ∧ |lo - (-72)| ≤ 1 / 100 := by
  refine ⟨by decide, ?_⟩
  rintro ⟨la, lo, h, h1, h2⟩
  rw [show maidenhead_to_latlon "FN20" = some (81 / 2, -75) from by decide] at h
  injection h with h'
  injection h' with hla hlo
  rw [← hla] at h1
  rw [abs_sub_le_iff] at h1
  norm_num at h1

/-- C4 as amended: `maidenhead_to_latlon "FN20"` returns exactly
(40.5, -75.0), the center of the 2°×1° cell at field F,N and square 2,0. -/
theorem c4_fn20_center : maidenhead_to_latlon "FN20" = some (81 / 2, -75) := by
  decide

/-- C5.  When the LAT and LON fields are both present and nonempty and parse
to a valid pair, and a GRIDSQUARE field is also present, the resolver returns
the explicit pair tagged "LATLON". -/
theorem c5_prefers_latlon (e : Entry) (l o gq : String) (p : ℚ × ℚ)
    (hl : getField e "LAT" = some l) (hl2 : l ≠ "")
    (ho : getField e "LON" = some o) (ho2 : o ≠ "")
    (hg : getField e "GRIDSQUARE" = some gq)
    (hp : parse_latlon l o = some p) :
    best_latlon e = some (p.1, p.2, "LATLON") := by
  simp [best_latlon, hl, ho, hl2, ho2, hp]

theorem c5_prefers_latlon_witness :
    best_latlon [("LAT", "40.00N"), ("LON", "074.0W"), ("GRIDSQUARE", "JJ00")] =
      some (40, -74, "LATLON") :=
  c5_prefers_latlon _ "40.00N" "074.0W" "JJ00" (40, -74) (by decide) (by decide)
    (by decide) (by decide) (by decide) (by decide)

/-- C9.  A syntactically well-formed coordinate string whose signed value is
out of the axis range is rejected — `_parse_coord` returns absent, never a
clamped value — and hence the resolver returns absent, as on the latitude
string "95N". -/
theorem c9_out_of_range_rejected :
    (∀ (text : List Char) (islat : Bool) (v : ℚ), signedValue text = some v →
      ¬(if islat = true then -90 ≤ v ∧ v ≤ 90 else -180 ≤ v ∧ v ≤ 180) →
      _parse_coord text islat = none)
    ∧ _parse_coord "95N".data true = none
    ∧ best_latlon [("LAT", "95N"), ("LON", "40.0")] = none := by
  refine ⟨?_, by decide, by decide⟩
  intro text islat v hsv hout
  simp only [_parse_coord, hsv, rangeFilter]
  cases islat
  · rw [if_neg (by simp)] at hout
    simp [hout]
  · rw [if_pos rfl] at hout
    simp [hout]

theorem c9_out_of_range_rejected_witness :
    _parse_coord "200".data false = none :=
  c9_out_of_range_rejected.1 "200".data false 200 (by decide) (by decide)

/-- C10.  When LAT and LON are present and nonempty but their direct parse
fails, the resolver does not return absent: it falls back to the grid-square
fields and returns the grid-derived coordinate tagged "GRID" when a valid
grid is present. -/
theorem c10_grid_fallback (e : Entry) (l o gq : String) (p : ℚ × ℚ)
    (hl : getField e "LAT" = some l) (hl2 : l ≠ "")
    (ho : getField e "LON" = some o) (ho2 : o ≠ "")
    (hp : parse_latlon l o = none)
    (hg : getField e "GRIDSQUARE" = some gq) (hg2 : gq ≠ "")
    (hm : maidenhead_to_latlon gq = some p) :
    best_latlon e = some (p.1, p.2, "GRID") := by
  simp [best_latlon, hl, ho, hl2, ho2, hp, hg, hg2, hm]

theorem c10_grid_fallback_witness :
    best_latlon [("LAT", "95N"), ("LON", "0.0"), ("GRIDSQUARE", "FN20")] =
      some (81 / 2, -75, "GRID") :=
  c10_grid_fallback _ "95N" "0.0" "FN20" (81 / 2, -75) (by decide) (by decide)
    (by decide) (by decide) (by decide) (by decide) (by decide) (by decide)

theorem getField_map_replace_self (kk vv : String) :
    ∀ e : Entry, e.any (fun p => p.1 == kk) = true →
    getField (e.map (fun p => if p.1 == kk then (kk, vv) else p)) kk = some vv := by
  intro e
  induction e with
  | nil => intro h; simp at h
  | cons p e' ih =>
    intro h
    by_cases hpk : (p.1 == kk) = true
    · simp [getField, List.find?, hpk]
    · have h' : e'.any (fun p => p.1 == kk) = true := by
        simp only [List.any_cons, hpk, Bool.false_or] at h
        exact h
      simp only [List.map_cons, if_neg hpk]
      have : getField (p :: e'.map (fun p => if p.1 == kk then (kk, vv) else p)) kk =
          getField (e'.map (fun p => if p.1 == kk then (kk, vv) else p)) kk := by
        simp [getField, List.find?, hpk]
      rw [this, ih h']

theorem getField_map_replace_other (kk vv k : String) (hk : k ≠ kk) :
    ∀ e : Entry,
    getField (e.map (fun p => if p.1 == kk then (kk, vv) else p)) k = getField e k := by
  intro e
  induction e with
  | nil => rfl
  | cons p e' ih =>
    by_cases hpk : (p.1 == kk) = true
    · have hp1 : p.1 = kk := by simpa using hpk
      have hkkk : (kk == k) = false := by
        simp only [beq_eq_false_iff_ne]
        exact fun hc => hk hc.symm
      have hpke : (p.1 == k) = false := by rw [hp1]; exact hkkk
      simp [getField, List.find?, hpk, hkkk, hpke] at ih ⊢
      exact ih
    · by_cases hpe : (p.1 == k) = true
      · simp [getField, List.find?, hpk, hpe]
      · simp [getField, List.find?, hpk, hpe] at ih ⊢
        exact ih

theorem getField_append_none (e : Entry) (k : String)
    (h : e.find? (fun p => p.1 == k) = none) (tail : Entry) :
    getField (e ++ tail) k = getField tail k := by
  simp [getField, List.find?_append, h]

theorem getField_dictInsert (e : Entry) (kk vv k : String) :
    getField (dictInsert e kk vv) k = if k = kk then some vv else getField e k := by
  rw [dictInsert]
  by_cases hany : e.any (fun p => p.1 == kk) = true
  · rw [if_pos hany]
    by_cases hk : k = kk
    · subst hk
      rw [if_pos rfl]
      exact getField_map_replace_self k vv e hany
    · rw [if_neg hk]
      exact getField_map_replace_other kk vv k hk e
  · rw [if_neg hany]
    have hnone : e.find? (fun p => p.1 == kk) = none := by
      rw [List.find?_eq_none]
      intro x hx
      have := (List.any_eq_true.not.mp hany)
      push_neg at this
      intro hc
      exact this x hx hc
    by_cases hk : k = kk
    · subst hk
      rw [if_pos rfl, getField_append_none e k hnone]
      simp [getField, List.find?]
    · rw [if_neg hk]
      cases hfe : e.find? (fun p => p.1 == k) with
      | some p => simp [getField, List.find?_append, hfe]
      | none =>
        rw [getField_append_none e k hfe]
        have : (kk == k) = false := by
          simp only [beq_eq_false_iff_ne]
          exact fun hc => hk hc.symm
        simp [getField, List.find?, this, hfe]

theorem getField_buildEntry_go (k : String) (e : Entry) (ms : List FieldTag) :
    getField (ms.foldl (fun ee m => dictInsert ee (tagKey m) (tagVal m)) e) k =
      match (ms.filter (fun m => tagKey m == k)).getLast? with
      | some m => some (tagVal m)
      | none => getField e k := by
  induction ms using List.reverseRecOn with
  | nil => simp
  | append_singleton ms' m ih =>
    rw [List.foldl_append]
    simp only [List.foldl_cons, List.foldl_nil]
    rw [getField_dictInsert, List.filter_append]
    by_cases hmk : tagKey m = k
    · have hb : (tagKey m == k) = true := by simpa using hmk
      simp only [List.filter_cons, hb, List.filter_nil, if_pos,
        List.getLast?_concat]
      rw [if_pos hmk.symm]
    · have hb : (tagKey m == k) = false := by simpa using hmk
      simp only [List.filter_cons, hb, List.filter_nil, List.append_nil,
        Bool.false_eq_true, if_false]
      rw [if_neg (fun hc => hmk hc.symm)]
      exact ih

/-- C6.  `parse_adif` stores each matched tag under the uppercased NAME with
value the first LENGTH characters of VALUE (shorter values kept whole by
`take`), whitespace-trimmed after truncation, the last match for a name
overwriting earlier ones; a LENGTH of 0 stores the empty string and the key
is present. -/
theorem c6_field_storage :
    (∀ (ms : List FieldTag) (k : String),
      getField (buildEntry ms) k =
        ((ms.filter (fun m => tagKey m == k)).getLast?).map tagVal)
    ∧ (∀ (nm v : List Char),
      getField (buildEntry [FieldTag.mk nm 0 v]) (tagKey (FieldTag.mk nm 0 v)) =
        some "") := by
  have hmain : ∀ (ms : List FieldTag) (k : String),
      getField (buildEntry ms) k =
        ((ms.filter (fun m => tagKey m == k)).getLast?).map tagVal := by
    intro ms k
    rw [buildEntry, getField_buildEntry_go]
    cases hl : (ms.filter (fun m => tagKey m == k)).getLast? with
    | some m => simp
    | none => simp [getField]
  refine ⟨hmain, ?_⟩
  intro nm v
  rw [hmain]
  simp [tagVal]
  rfl

theorem startsWithCI_append {pat m : List Char} (q : List Char)
    (h : startsWithCI pat m = true) : startsWithCI pat (m ++ q) = true := by
  induction pat generalizing m with
  | nil => rfl
  | cons p ps ih =>
    cases m with
    | nil => simp [startsWithCI] at h
    | cons c cs =>
      simp only [List.cons_append, startsWithCI, Bool.and_eq_true] at h ⊢
      exact ⟨h.1, ih h.2⟩

theorem dropThroughCI_skip (pat : List Char) :
    ∀ (pre rest : List Char),
    (∀ i, i < pre.length → startsWithCI pat ((pre ++ rest).drop i) = false) →
    dropThroughCI pat (pre ++ rest) = dropThroughCI pat rest := by
  intro pre
  induction pre with
  | nil => intro rest _; rfl
  | cons c pre' ih =>
    intro rest h
    have h0 := h 0 (by simp)
    simp only [List.drop_zero, List.cons_append] at h0
    rw [List.cons_append, dropThroughCI, if_neg (by simp [h0])]
    exact ih rest (fun i hi => by
      have := h (i + 1) (by simp only [List.length_cons]; omega)
      simpa using this)

theorem dropThroughCI_found (pat mid post : List Char) (hne : pat ≠ [])
    (hsw : startsWithCI pat mid = true) (hlen : mid.length = pat.length) :
    dropThroughCI pat (mid ++ post) = some post := by
  cases mid with
  | nil =>
    cases pat with
    | nil => exact absurd rfl hne
    | cons p ps => simp [startsWithCI] at hsw
  | cons c cs =>
    rw [List.cons_append, dropThroughCI,
      if_pos (by simpa using startsWithCI_append post hsw)]
    rw [← List.cons_append, ← hlen, List.drop_left]

theorem dropThroughCI_none (pat : List Char) :
    ∀ l, (∀ i, i < l.length → startsWithCI pat (l.drop i) = false) →
    dropThroughCI pat l = none := by
  intro l
  induction l with
  | nil => intro _; rfl
  | cons c rest ih =>
    intro h
    have h0 := h 0 (by simp)
    simp only [List.drop_zero] at h0
    rw [dropThroughCI, if_neg (by simp [h0])]
    exact ih (fun i hi => by
      have := h (i + 1) (by simp only [List.length_cons]; omega)
      simpa using this)

theorem splitEor_skip_found : ∀ (a mid b : List Char),
    (∀ i, i < a.length → startsWithCI eorPat ((a ++ mid ++ b).drop i) = false) →
    startsWithCI eorPat mid = true → mid.length = 5 →
    splitEor (a ++ mid ++ b) = a :: splitEor b := by
  intro a
  induction a with
  | nil =>
    intro mid b _ hsw hlen
    match mid, hlen with
    | m :: tl, hlen =>
      have htl : tl.length = 4 := by simpa using hlen
      simp only [List.nil_append, List.cons_append]
      rw [splitEor, if_pos (by simpa using startsWithCI_append b hsw)]
      congr 1
      · rw [show (4 : ℕ) = tl.length from htl.symm, List.drop_left]
  | cons c a' ih =>
    intro mid b h hsw hlen
    have h0 := h 0 (by simp)
    simp only [List.drop_zero, List.cons_append, List.append_assoc] at h0
    simp only [List.cons_append]
    rw [splitEor, if_neg (by simp only [List.append_assoc]; simp [h0])]
    rw [ih mid b (fun i hi => by
      have := h (i + 1) (by simp only [List.length_cons]; omega)
      simpa using this) hsw hlen]

theorem processChunk_blank (chunk : List Char) (h : ∀ c ∈ chunk, isPyWs c = true) :
    processChunk chunk = none := by
  have h1 : chunk.dropWhile isPyWs = [] := by
    rw [List.dropWhile_eq_nil_iff]
    exact fun x hx => h x hx
  have hstrip : pyStrip chunk = [] := by
    rw [pyStrip, h1]
    rfl
  simp [processChunk, hstrip]

theorem processChunk_no_tags (chunk : List Char)
    (h : findTags (pyStrip chunk) = []) : processChunk chunk = none := by
  by_cases hs : pyStrip chunk = []
  · simp [processChunk, hs]
  · simp [processChunk, hs, h, buildEntry]

/-- C7.  The `<eoh>` and `<eor>` markers are matched case-insensitively (any
letter-case spelling — any `mid` of length 5 matching the marker pattern
case-insensitively — terminates the header or a record); the first header
marker discards everything up to and including itself, an absent marker means
the whole text is data, and an all-whitespace chunk or a chunk with no tag
matches produces no record. -/
theorem c7_markers_and_chunks :
    (∀ pre mid post : List Char,
      (∀ i, i < pre.length → startsWithCI eohPat ((pre ++ mid ++ post).drop i) = false) →
      startsWithCI eohPat mid = true → mid.length = 5 →
      dataSection (pre ++ mid ++ post) = post)
    ∧ (∀ l : List Char,
      (∀ i, i < l.length → startsWithCI eohPat (l.drop i) = false) →
      dataSection l = l)
    ∧ (∀ a mid b : List Char,
      (∀ i, i < a.length → startsWithCI eorPat ((a ++ mid ++ b).drop i) = false) →
      startsWithCI eorPat mid = true → mid.length = 5 →
      splitEor (a ++ mid ++ b) = a :: splitEor b)
    ∧ (∀ chunk : List Char, (∀ c ∈ chunk, isPyWs c = true) → processChunk chunk = none)
    ∧ (∀ chunk : List Char, findTags (pyStrip chunk) = [] → processChunk chunk = none) := by
  refine ⟨?_, ?_, splitEor_skip_found, processChunk_blank, processChunk_no_tags⟩
  · intro pre mid post h hsw hlen
    rw [dataSection, List.append_assoc, dropThroughCI_skip eohPat pre (mid ++ post)
      (by rw [← List.append_assoc]; exact h)]
    rw [dropThroughCI_found eohPat mid post (by decide) hsw (by simpa using hlen)]
  · intro l h
    rw [dataSection, dropThroughCI_none eohPat l h]

theorem c7_markers_and_chunks_witness :
    dataSection ("hdr".data ++ "<EoH>".data ++ "rest".data) = "rest".data
    ∧ splitEor ("ab".data ++ "<eOr>".data ++ "cd".data) = "ab".data :: splitEor "cd".data
    ∧ dataSection "nohdr".data = "nohdr".data
    ∧ processChunk "  ".data = none
    ∧ processChunk "".data = none :=
  ⟨c7_markers_and_chunks.1 "hdr".data "<EoH>".data "rest".data (by decide) (by decide)
      (by decide),
   c7_markers_and_chunks.2.2.1 "ab".data "<eOr>".data "cd".data (by decide) (by decide)
      (by decide),
   c7_markers_and_chunks.2.1 "nohdr".data (by decide),
   c7_markers_and_chunks.2.2.2.1 "  ".data (by decide),
   c7_markers_and_chunks.2.2.2.2 "".data (by simp [pyStrip, findTags])⟩

theorem reducePoints_go (recs : List Entry) :
    ∀ (l : List (ℚ × ℚ × Entry)) (n : Nat),
    recs.foldl
      (fun acc rec =>
        match best_latlon rec with
        | none => (acc.1, acc.2 + 1)
        | some p => (acc.1 ++ [(p.1, p.2.1, rec)], acc.2)) (l, n) =
      (l ++ recs.filterMap (fun r => (best_latlon r).map (fun p => (p.1, p.2.1, r))),
       n + (recs.filter (fun r => (best_latlon r).isNone)).length) := by
  induction recs with
  | nil => intro l n; simp
  | cons r rs ih =>
    intro l n
    cases hb : best_latlon r with
    | none =>
      simp only [List.foldl_cons, hb, List.filterMap_cons, List.filter_cons,
        Option.map_none', Option.isNone_none, if_pos, List.length_cons]
      rw [ih]
      simp only [Prod.mk.injEq, true_and]
      omega
    | some p =>
      simp only [List.foldl_cons, hb, List.filterMap_cons, List.filter_cons,
        Option.map_some', Option.isNone_some, Bool.false_eq_true, if_false]
      rw [ih]
      simp

theorem reduce_length_split (recs : List Entry) :
    (recs.filterMap (fun r => (best_latlon r).map (fun p => (p.1, p.2.1, r)))).length
      + (recs.filter (fun r => (best_latlon r).isNone)).length = recs.length := by
  induction recs with
  | nil => rfl
  | cons r rs ih =>
    cases hb : best_latlon r with
    | none => simp [hb, ← ih]; omega
    | some p => simp [hb, ← ih]; omega

theorem reduce_all_none (recs : List Entry)
    (hall : ∀ r ∈ recs, best_latlon r = none) :
    recs.filterMap (fun r => (best_latlon r).map (fun p => (p.1, p.2.1, r))) = []
    ∧ (recs.filter (fun r => (best_latlon r).isNone)).length = recs.length := by
  induction recs with
  | nil => exact ⟨rfl, rfl⟩
  | cons r rs ih =>
    have hr := hall r (by simp)
    have ihh := ih (fun x hx => hall x (by simp [hx]))
    simp [hr, ihh.1, ihh.2]

/-- C8.  The reduction visits records in input order: the resolved list is
exactly the in-order filter-map of the resolver over the input, the skip
counter counts exactly the unresolved records, resolved length plus skip
count equals the input length, and when no record resolves the list is empty
with skip count equal to the total. -/
theorem c8_reduction (recs : List Entry) :
    (reducePoints recs).1 =
        recs.filterMap (fun r => (best_latlon r).map (fun p => (p.1, p.2.1, r)))
    ∧ (reducePoints recs).2 =
        (recs.filter (fun r => (best_latlon r).isNone)).length
    ∧ (reducePoints recs).1.length + (reducePoints recs).2 = recs.length
    ∧ ((∀ r ∈ recs, best_latlon r = none) →
        (reducePoints recs).1 = [] ∧ (reducePoints recs).2 = recs.length) := by
  have hgo := reducePoints_go recs [] 0
  have h1 : (reducePoints recs).1 =
      recs.filterMap (fun r => (best_latlon r).map (fun p => (p.1, p.2.1, r))) := by
    rw [reducePoints, hgo]
    simp
  have h2 : (reducePoints recs).2 =
      (recs.filter (fun r => (best_latlon r).isNone)).length := by
    rw [reducePoints, hgo]
    simp
  refine ⟨h1, h2, ?_, ?_⟩
  · rw [h1, h2]
    exact reduce_length_split recs
  · intro hall
    have := reduce_all_none recs hall
    exact ⟨h1.trans this.1, h2.trans this.2⟩

theorem c8_reduction_witness :
    (reducePoints [[("GRIDSQUARE", "ZZZZ")]]).1 = []
    ∧ (reducePoints [[("GRIDSQUARE", "ZZZZ")]]).2 = 1 :=
  (c8_reduction [[("GRIDSQUARE", "ZZZZ")]]).2.2.2 (by decide)

